import Mathlib

/-!
Verification of the PDF figure-extraction pipeline of `paperview`
(`paperview/retrieval/pdf_extraction.py`).

Conventions of the embedding:
* Python floats on page-geometry fields are modelled as exact rationals
  (`Rat`); every concrete value the pipeline and its tests manipulate is a
  small integer or half-integer, so the rational model is exact on them.
  The one float behaviour outside the rational model is `NaN`: pandas
  `Series.max()` of an empty column is `NaN`, which the model replaces by a
  default, and theorems touching that path carry an explicit nonemptiness
  hypothesis instead.
* pandas data frames of words, lines and labels are modelled as lists of
  records, in row order.
* PIL bitmaps are modelled by their pixel dimensions; `Image.paste` never
  fails on a size mismatch (the pasted region is silently clipped), so the
  dimensions are the only bitmap observable the claims mention.
* Python `str.lower`, `str.split()` and `isalnum`-based stripping are
  modelled by structurally recursive functions over the character list of
  the string.
* Python dictionaries are records; the stages that mutate dictionaries in
  place are additionally modelled on an explicit store (a list of records)
  indexed by addresses, mirroring object identity.
-/

/-- Key type used by `sorted(..., key=...)` calls and pandas `groupby` in the
pipeline: a page number together with two rational coordinates, compared
lexicographically exactly as Python compares the corresponding tuples. -/
abbrev SortKey : Type := Nat × Rat × Rat

/-- Lexicographic strict comparison on `SortKey`, the order Python uses on
3-tuples `(page_number, a, b)`. -/
def sortKeyLt (a b : SortKey) : Bool :=
  decide (a.1 < b.1) ||
    (decide (a.1 = b.1) &&
      (decide (a.2.1 < b.2.1) ||
        (decide (a.2.1 = b.2.1) && decide (a.2.2 < b.2.2))))

theorem sortKeyLt_iff (a b : SortKey) :
    sortKeyLt a b = true ↔
      a.1 < b.1 ∨ (a.1 = b.1 ∧ (a.2.1 < b.2.1 ∨ (a.2.1 = b.2.1 ∧ a.2.2 < b.2.2))) := by
  simp [sortKeyLt]

theorem sortKeyLt_irrefl (a : SortKey) : sortKeyLt a a = false := by
  rw [Bool.eq_false_iff]
  intro h
  rcases (sortKeyLt_iff a a).1 h with h1 | ⟨_, h2 | ⟨_, h3⟩⟩
  · exact lt_irrefl _ h1
  · exact lt_irrefl _ h2
  · exact lt_irrefl _ h3

theorem sortKeyLt_asymm (a b : SortKey) (h : sortKeyLt a b = true) :
    sortKeyLt b a = false := by
  rw [Bool.eq_false_iff]
  intro h'
  rcases (sortKeyLt_iff a b).1 h with h1 | ⟨e1, h2 | ⟨e2, h3⟩⟩ <;>
    rcases (sortKeyLt_iff b a).1 h' with g1 | ⟨f1, g2 | ⟨f2, g3⟩⟩
  · exact lt_irrefl _ (h1.trans g1)
  · exact absurd f1 (ne_of_gt h1)
  · exact absurd f1 (ne_of_gt h1)
  · exact absurd e1 (ne_of_gt g1)
  · exact lt_irrefl _ (h2.trans g2)
  · exact absurd f2 (ne_of_gt h2)
  · exact absurd e1 (ne_of_gt g1)
  · exact absurd e2 (ne_of_gt g2)
  · exact lt_irrefl _ (h3.trans g3)

theorem sortKeyLt_neg_trans (a b c : SortKey)
    (h1 : sortKeyLt c b = false) (h2 : sortKeyLt b a = false) :
    sortKeyLt c a = false := by
  rw [Bool.eq_false_iff] at h1 h2 ⊢
  intro h
  rcases (sortKeyLt_iff c a).1 h with hlt | ⟨he, hlt | ⟨he2, hlt2⟩⟩
  · rcases lt_trichotomy c.1 b.1 with q | q | q
    · exact h1 ((sortKeyLt_iff c b).2 (Or.inl q))
    · exact h2 ((sortKeyLt_iff b a).2 (Or.inl (q ▸ hlt)))
    · rcases lt_trichotomy b.1 a.1 with r | r | r
      · exact h2 ((sortKeyLt_iff b a).2 (Or.inl r))
      · exact absurd (r ▸ q) (lt_asymm hlt)
      · exact absurd (hlt.trans r) (lt_asymm q)
  · rcases lt_trichotomy c.1 b.1 with q | q | q
    · exact h1 ((sortKeyLt_iff c b).2 (Or.inl q))
    · rcases lt_trichotomy c.2.1 b.2.1 with r | r | r
      · exact h1 ((sortKeyLt_iff c b).2 (Or.inr ⟨q, Or.inl r⟩))
      · exact h2 ((sortKeyLt_iff b a).2
          (Or.inr ⟨q ▸ he ▸ rfl, Or.inl (r ▸ hlt)⟩))
      · rcases lt_trichotomy b.2.1 a.2.1 with s | s | s
        · exact h2 ((sortKeyLt_iff b a).2 (Or.inr ⟨q ▸ he ▸ rfl, Or.inl s⟩))
        · exact absurd (s ▸ r) (lt_asymm hlt)
        · exact absurd (hlt.trans s) (lt_asymm r)
    · exact h2 ((sortKeyLt_iff b a).2 (Or.inl (he ▸ q)))
  · rcases lt_trichotomy c.1 b.1 with q | q | q
    · exact h1 ((sortKeyLt_iff c b).2 (Or.inl q))
    · rcases lt_trichotomy c.2.1 b.2.1 with r | r | r
      · exact h1 ((sortKeyLt_iff c b).2 (Or.inr ⟨q, Or.inl r⟩))
      · rcases lt_trichotomy c.2.2 b.2.2 with s | s | s
        · exact h1 ((sortKeyLt_iff c b).2 (Or.inr ⟨q, Or.inr ⟨r, s⟩⟩))
        · exact h2 ((sortKeyLt_iff b a).2
            (Or.inr ⟨q ▸ he ▸ rfl, Or.inr ⟨r ▸ he2 ▸ rfl, s ▸ hlt2⟩⟩))
        · rcases lt_trichotomy b.2.2 a.2.2 with t | t | t
          · exact h2 ((sortKeyLt_iff b a).2
              (Or.inr ⟨q ▸ he ▸ rfl, Or.inr ⟨r ▸ he2 ▸ rfl, t⟩⟩))
          · exact absurd (t ▸ s) (lt_asymm hlt2)
          · exact absurd (hlt2.trans t) (lt_asymm s)
      · exact h2 ((sortKeyLt_iff b a).2 (Or.inr ⟨q ▸ he ▸ rfl, Or.inl (he2 ▸ r)⟩))
    · exact h2 ((sortKeyLt_iff b a).2 (Or.inl (he ▸ q)))

theorem sortKeyLt_total (a b : SortKey)
    (h1 : sortKeyLt a b = false) (h2 : sortKeyLt b a = false) : a = b := by
  rw [Bool.eq_false_iff] at h1 h2
  have e1 : a.1 = b.1 := by
    rcases lt_trichotomy a.1 b.1 with q | q | q
    · exact absurd ((sortKeyLt_iff a b).2 (Or.inl q)) h1
    · exact q
    · exact absurd ((sortKeyLt_iff b a).2 (Or.inl q)) h2
  have e2 : a.2.1 = b.2.1 := by
    rcases lt_trichotomy a.2.1 b.2.1 with q | q | q
    · exact absurd ((sortKeyLt_iff a b).2 (Or.inr ⟨e1, Or.inl q⟩)) h1
    · exact q
    · exact absurd ((sortKeyLt_iff b a).2 (Or.inr ⟨e1.symm, Or.inl q⟩)) h2
  have e3 : a.2.2 = b.2.2 := by
    rcases lt_trichotomy a.2.2 b.2.2 with q | q | q
    · exact absurd ((sortKeyLt_iff a b).2 (Or.inr ⟨e1, Or.inr ⟨e2, q⟩⟩)) h1
    · exact q
    · exact absurd ((sortKeyLt_iff b a).2 (Or.inr ⟨e1.symm, Or.inr ⟨e2.symm, q⟩⟩)) h2
  exact Prod.ext e1 (Prod.ext e2 e3)

/-- Stable insertion of `x` into `l`: `x` is placed before the first element
whose key is not strictly below the key of `x`.  Used to model Python's
stable `sorted(..., key=...)` (Timsort) and pandas' stable groupby order:
repeated stable insertion, processing the input left to right, produces
exactly the stable sort. -/
def insertStable (lt : κ → κ → Bool) (k : α → κ) (x : α) : List α → List α
  | [] => [x]
  | y :: ys => if lt (k y) (k x) then y :: insertStable lt k x ys else x :: y :: ys

/-- Stable sort by the key function `k` under the strict comparison `lt`. -/
def sortStable (lt : κ → κ → Bool) (k : α → κ) : List α → List α
  | [] => []
  | x :: xs => insertStable lt k x (sortStable lt k xs)

theorem insertStable_perm (lt : κ → κ → Bool) (k : α → κ) (x : α) (l : List α) :
    List.Perm (insertStable lt k x l) (x :: l) := by
  induction l with
  | nil => exact List.Perm.refl _
  | cons y ys ih =>
    by_cases h : lt (k y) (k x) = true
    · simpa [insertStable, h] using ((ih.cons y).trans (List.Perm.swap x y ys))
    · simp [insertStable, h]

theorem sortStable_perm (lt : κ → κ → Bool) (k : α → κ) (l : List α) :
    List.Perm (sortStable lt k l) l := by
  induction l with
  | nil => exact List.Perm.refl _
  | cons x xs ih =>
    exact (insertStable_perm lt k x (sortStable lt k xs)).trans (ih.cons x)

theorem mem_insertStable (lt : κ → κ → Bool) (k : α → κ) (x a : α) (l : List α) :
    a ∈ insertStable lt k x l ↔ a = x ∨ a ∈ l := by
  rw [(insertStable_perm lt k x l).mem_iff, List.mem_cons]

theorem insertStable_pairwise (lt : κ → κ → Bool) (k : α → κ)
    (hasymm : ∀ a b, lt a b = true → lt b a = false)
    (hnt : ∀ a b c, lt c b = false → lt b a = false → lt c a = false)
    (x : α) (l : List α)
    (hl : l.Pairwise (fun a b => lt (k b) (k a) = false)) :
    (insertStable lt k x l).Pairwise (fun a b => lt (k b) (k a) = false) := by
  induction l with
  | nil => simp [insertStable]
  | cons y ys ih =>
    rw [List.pairwise_cons] at hl
    by_cases h : lt (k y) (k x) = true
    · rw [insertStable, if_pos h, List.pairwise_cons]
      refine ⟨?_, ih hl.2⟩
      intro z hz
      rcases (mem_insertStable lt k x z ys).1 hz with rfl | hz
      · exact hasymm _ _ h
      · exact hl.1 z hz
    · rw [insertStable, if_neg h, List.pairwise_cons]
      rw [Bool.not_eq_true] at h
      refine ⟨?_, List.pairwise_cons.2 hl⟩
      intro z hz
      rcases List.mem_cons.1 hz with rfl | hz
      · exact h
      · exact hnt _ _ _ (hl.1 z hz) h

theorem sortStable_pairwise (lt : κ → κ → Bool) (k : α → κ)
    (hasymm : ∀ a b, lt a b = true → lt b a = false)
    (hnt : ∀ a b c, lt c b = false → lt b a = false → lt c a = false)
    (l : List α) :
    (sortStable lt k l).Pairwise (fun a b => lt (k b) (k a) = false) := by
  induction l with
  | nil => simp [sortStable]
  | cons x xs ih => exact insertStable_pairwise lt k hasymm hnt x _ ih

theorem insertStable_filter_key [DecidableEq κ] (lt : κ → κ → Bool) (k : α → κ)
    (hirr : ∀ a, lt a a = false) (c : κ) (x : α) (l : List α) :
    (insertStable lt k x l).filter (fun a => decide (k a = c)) =
      if k x = c then x :: l.filter (fun a => decide (k a = c))
      else l.filter (fun a => decide (k a = c)) := by
  induction l with
  | nil => by_cases hx : k x = c <;> simp [insertStable, List.filter_cons, hx]
  | cons y ys ih =>
    by_cases h : lt (k y) (k x) = true
    · simp only [insertStable, if_pos h]
      by_cases hyc : k y = c
      · have hxc : ¬k x = c := by
          intro hxc
          rw [hyc, hxc, hirr c] at h
          exact Bool.false_ne_true h
        simp [List.filter_cons, ih, hxc, hyc]
      · by_cases hxc : k x = c <;> simp [List.filter_cons, ih, hyc, hxc]
    · simp only [insertStable, if_neg h]
      by_cases hxc : k x = c <;> simp [List.filter_cons, hxc]

theorem sortStable_filter_key [DecidableEq κ] (lt : κ → κ → Bool) (k : α → κ)
    (hirr : ∀ a, lt a a = false) (c : κ) (l : List α) :
    (sortStable lt k l).filter (fun a => decide (k a = c)) =
      l.filter (fun a => decide (k a = c)) := by
  induction l with
  | nil => rfl
  | cons x xs ih =>
    rw [sortStable, insertStable_filter_key lt k hirr c x _, ih]
    by_cases hxc : k x = c <;> simp [List.filter_cons, hxc]

/-- Pixel bitmap of a PIL image, modelled by its dimensions.  `Image.new`
creates a canvas of the given size and `Image.paste` clips the pasted
source to the canvas, so pasting never fails and the dimensions are the
only bitmap observable the claims are about. -/
structure PILImage where
  width : Nat
  height : Nat
deriving DecidableEq, Inhabited, Repr

/-- One row of an image's `candidate_labels` data frame, as built by
`extract_figure_labels`. -/
structure LabelCandidate where
  page_number : Nat
  line_number : Nat
  word_number : Nat
  distance : Rat
  label : String
deriving DecidableEq, Inhabited, Repr

/-- One image dictionary of the pipeline (a pdfplumber image record plus the
rendered bitmap).  `image_number` and `candidate_labels` are the keys added
by the later `order_images` and `find_candidate_labels_for_figures` stages;
they are `none` while the key is absent from the dictionary. -/
structure ImageRec where
  page_number : Nat
  x0 : Rat
  x1 : Rat
  y0 : Rat
  y1 : Rat
  top : Rat
  bottom : Rat
  doctop : Rat
  width : Rat
  height : Rat
  image : PILImage
  image_number : Option Nat := none
  candidate_labels : Option (List LabelCandidate) := none
deriving DecidableEq, Inhabited, Repr

/-- One row of the line data frame produced by `word_df_to_line_df`. -/
structure LineRec where
  line_number : Nat
  page_number : Nat
  top : Rat
  bottom : Rat
  text : String
deriving DecidableEq, Inhabited, Repr

/-- One row of the word data frame (a pdfplumber word record). -/
structure WordRec where
  page_number : Nat
  top : Rat
  bottom : Rat
  x0 : Rat
  text : String
deriving DecidableEq, Inhabited, Repr

/-- Python `str.lower()`, modelled characterwise. -/
def pyLower (s : String) : String := String.mk (s.data.map Char.toLower)

/-- Helper of `pySplit`: scan the characters, accumulating the current word
in reverse; whitespace ends the current word, and empty words are dropped,
exactly as Python `str.split()` with no separator behaves. -/
def pySplitAux : List Char → List Char → List String
  | [], acc => if acc.isEmpty then [] else [String.mk acc.reverse]
  | c :: cs, acc =>
    if c.isWhitespace then
      if acc.isEmpty then pySplitAux cs [] else String.mk acc.reverse :: pySplitAux cs []
    else pySplitAux cs (c :: acc)

/-- Python `str.split()` (split on whitespace runs, no empty words). -/
def pySplit (s : String) : List String := pySplitAux s.data []

/-- Strip a word to its alphanumeric characters:
`''.join([c for c in word if c.isalnum()])`. -/
def stripNonAlnum (w : String) : String := String.mk (w.data.filter Char.isAlphanum)

/-- The fixed figure-indicator tokens (`FIGURE_INDICATORS` in the source). -/
def FIGURE_INDICATORS : List String := ["figure", "fig", "fig."]

/-- Decides whether `pat` occurs as a contiguous infix of the character
list `l`. -/
def listHasInfix (pat : List Char) : List Char → Bool
  | [] => pat.isEmpty
  | c :: cs => pat.isPrefixOf (c :: cs) || listHasInfix pat cs

/-- Matcher for the regex fragment `fig.` at the head of the character
list: the literal characters `f`, `i`, `g` followed by the `.` wildcard,
which matches any character except a newline. -/
def figDotMatchAt : List Char → Bool
  | f :: i :: g :: d :: _ => f == 'f' && i == 'i' && g == 'g' && !(d == '\n')
  | _ => false

/-- Decides whether the regex fragment `fig.` matches somewhere in the
character list. -/
def hasFigDotMatch : List Char → Bool
  | [] => false
  | c :: cs => figDotMatchAt (c :: cs) || hasFigDotMatch cs

/-- The pandas prefilter
`lines['text'].str.lower().str.contains('|'.join(FIGURE_INDICATORS))`:
a regex search for `figure|fig|fig.` anywhere in the (already lowered)
text, where the unescaped `.` is the any-character wildcard. -/
def matchesFigureRegex (s : String) : Bool :=
  listHasInfix "figure".data s.data || listHasInfix "fig".data s.data ||
    hasFigDotMatch s.data

/-- Pair qualification test of `identify_images_to_vertically_splice`:
same page, widths within 1 unit, and the top of `image1` meets the bottom
of `image2` within 1 unit. -/
def vertical_candidate_cond (image1 image2 : ImageRec) : Bool :=
  image1.page_number == image2.page_number &&
    decide (|image1.width - image2.width| < 1) &&
    decide (|image1.top - image2.bottom| < 1)

/-- Pair qualification test of `identify_images_to_horizontally_splice`:
same page, heights within 1 unit, and the right edge of `image1` meets the
left edge of `image2` within 1 unit. -/
def horizontal_candidate_cond (image1 image2 : ImageRec) : Bool :=
  image1.page_number == image2.page_number &&
    decide (|image1.height - image2.height| < 1) &&
    decide (|image1.x1 - image2.x0| < 1)

/-- `identify_images_to_vertically_splice`: scan all ordered index pairs
`(i, j)` with `i ≠ j` and collect `(image2, image1)` (the upper piece
first) for each qualifying pair. -/
def identify_images_to_vertically_splice (image_list : List ImageRec) :
    List (ImageRec × ImageRec) :=
  image_list.enum.bind (fun p =>
    image_list.enum.filterMap (fun q =>
      if p.1 ≠ q.1 ∧ vertical_candidate_cond p.2 q.2 = true then some (q.2, p.2)
      else none))

/-- `identify_images_to_horizontally_splice`: scan all ordered index pairs
`(i, j)` with `i ≠ j` and collect `(image1, image2)` (the left piece
first) for each qualifying pair. -/
def identify_images_to_horizontally_splice (image_list : List ImageRec) :
    List (ImageRec × ImageRec) :=
  image_list.enum.bind (fun p =>
    image_list.enum.filterMap (fun q =>
      if p.1 ≠ q.1 ∧ horizontal_candidate_cond p.2 q.2 = true then some (p.2, q.2)
      else none))

/-- `vertically_splice_image_pair`: the merged record is a copy of the top
record with updated geometry.  Note the `height` field is
`new_image['height'] + new_image['height']` where `new_image` is the copy
of `top_image`, i.e. twice the top height; the bitmap canvas is
`(top width, top height + bottom height)` and pasting clips to it. -/
def vertically_splice_image_pair (top_image bottom_image : ImageRec) : ImageRec :=
  { top_image with
      y0 := bottom_image.y0
      y1 := top_image.y1
      height := top_image.height + top_image.height
      top := top_image.top
      bottom := bottom_image.bottom
      doctop := bottom_image.doctop
      image := { width := top_image.image.width
                 height := top_image.image.height + bottom_image.image.height } }

/-- `horizontally_splice_image_pair`: the merged record is a copy of the
left record with updated geometry; the bitmap canvas is
`(left width + right width, left height)` and pasting clips to it. -/
def horizontally_splice_image_pair (left_image right_image : ImageRec) : ImageRec :=
  { left_image with
      x0 := left_image.x0
      x1 := right_image.x1
      width := left_image.width + right_image.width
      image := { width := left_image.image.width + right_image.image.width
                 height := left_image.image.height } }

/-- Removal step shared by both splice loops: `if candidate[k] in list:
list.remove(candidate[k])` for both components (removing the first equal
element, which is Python `list.remove` on the working list). -/
def removeSpliced (c : ImageRec × ImageRec) (l1 : List ImageRec) : List ImageRec :=
  let l2 := if c.1 ∈ l1 then l1.erase c.1 else l1
  if c.2 ∈ l2 then l2.erase c.2 else l2

/-- One iteration of the vertical while-loop of `splice_images`: append the
merged image, then remove both constituents. -/
def spliceStepV (l : List ImageRec) (c : ImageRec × ImageRec) : List ImageRec :=
  removeSpliced c (l ++ [vertically_splice_image_pair c.1 c.2])

/-- One iteration of the horizontal while-loop of `splice_images`. -/
def spliceStepH (l : List ImageRec) (c : ImageRec × ImageRec) : List ImageRec :=
  removeSpliced c (l ++ [horizontally_splice_image_pair c.1 c.2])

theorem two_le_count_of_get?_of_ne [DecidableEq α] {a : α} :
    ∀ (l : List α) (i j : Nat), i ≠ j → l.get? i = some a → l.get? j = some a →
      2 ≤ l.count a := by
  intro l
  induction l with
  | nil => intro i j _ hi _; simp at hi
  | cons x xs ih =>
    intro i j hij hi hj
    match i, j with
    | 0, 0 => exact absurd rfl hij
    | 0, Nat.succ jj =>
      have hx : x = a := by simpa using hi
      have ha : a ∈ xs := List.get?_mem (by simpa using hj)
      have h1 : 1 ≤ xs.count a := List.count_pos_iff.2 ha
      have h2 : (x :: xs).count a = xs.count a + 1 := by
        rw [List.count_cons]; simp [hx]
      omega
    | Nat.succ ii, 0 =>
      have hx : x = a := by simpa using hj
      have ha : a ∈ xs := List.get?_mem (by simpa using hi)
      have h1 : 1 ≤ xs.count a := List.count_pos_iff.2 ha
      have h2 : (x :: xs).count a = xs.count a + 1 := by
        rw [List.count_cons]; simp [hx]
      omega
    | Nat.succ ii, Nat.succ jj =>
      have h1 : 2 ≤ xs.count a :=
        ih ii jj (fun he => hij (by rw [he])) (by simpa using hi) (by simpa using hj)
      rw [List.count_cons]
      omega

theorem mem_identifyV_spec {l : List ImageRec} {c : ImageRec × ImageRec}
    (h : c ∈ identify_images_to_vertically_splice l) :
    c.1 ∈ l ∧ c.2 ∈ l ∧ (c.1 = c.2 → 2 ≤ l.count c.1) := by
  rcases List.mem_bind.1 h with ⟨p, hp, hin⟩
  rcases List.mem_filterMap.1 hin with ⟨q, hq, heq⟩
  by_cases hcond : p.1 ≠ q.1 ∧ vertical_candidate_cond p.2 q.2 = true
  · rw [if_pos hcond] at heq
    have hc : c = (q.2, p.2) := (Option.some_inj.1 heq).symm
    have hp' : l.get? p.1 = some p.2 := List.mem_enum_iff_get?.1 hp
    have hq' : l.get? q.1 = some q.2 := List.mem_enum_iff_get?.1 hq
    subst hc
    refine ⟨List.get?_mem hq', List.get?_mem hp', ?_⟩
    intro he
    exact two_le_count_of_get?_of_ne l q.1 p.1 (fun e => hcond.1 e.symm) hq'
      (he ▸ hp')
  · rw [if_neg hcond] at heq
    exact absurd heq (by simp)

theorem mem_identifyH_spec {l : List ImageRec} {c : ImageRec × ImageRec}
    (h : c ∈ identify_images_to_horizontally_splice l) :
    c.1 ∈ l ∧ c.2 ∈ l ∧ (c.1 = c.2 → 2 ≤ l.count c.1) := by
  rcases List.mem_bind.1 h with ⟨p, hp, hin⟩
  rcases List.mem_filterMap.1 hin with ⟨q, hq, heq⟩
  by_cases hcond : p.1 ≠ q.1 ∧ horizontal_candidate_cond p.2 q.2 = true
  · rw [if_pos hcond] at heq
    have hc : c = (p.2, q.2) := (Option.some_inj.1 heq).symm
    have hp' : l.get? p.1 = some p.2 := List.mem_enum_iff_get?.1 hp
    have hq' : l.get? q.1 = some q.2 := List.mem_enum_iff_get?.1 hq
    subst hc
    refine ⟨List.get?_mem hp', List.get?_mem hq', ?_⟩
    intro he
    exact two_le_count_of_get?_of_ne l p.1 q.1 hcond.1 hp' (he ▸ hq')
  · rw [if_neg hcond] at heq
    exact absurd heq (by simp)

theorem length_removeSpliced_lt {l : List ImageRec} {c : ImageRec × ImageRec}
    (x : ImageRec) (h1 : c.1 ∈ l) (h2 : c.2 ∈ l)
    (hdup : c.1 = c.2 → 2 ≤ l.count c.1) :
    (removeSpliced c (l ++ [x])).length < l.length := by
  have hc1 : c.1 ∈ l ++ [x] := List.mem_append_left _ h1
  have hlen1 : (l ++ [x]).length = l.length + 1 := by simp
  have hlen2 : ((l ++ [x]).erase c.1).length = l.length := by
    rw [List.length_erase_of_mem hc1, hlen1]
    omega
  have hc2 : c.2 ∈ (l ++ [x]).erase c.1 := by
    rw [← List.count_pos_iff]
    rcases eq_or_ne c.2 c.1 with he | hne
    · rw [he, List.count_erase_self]
      have h2' : 2 ≤ (l ++ [x]).count c.1 := by
        rw [List.count_append]
        exact le_trans (hdup he.symm) (Nat.le_add_right _ _)
      omega
    · rw [List.count_erase_of_ne hne, List.count_pos_iff]
      exact List.mem_append_left _ h2
  have hpos : 0 < l.length := List.length_pos.2 (List.ne_nil_of_mem h1)
  rw [removeSpliced]
  simp only [if_pos hc1, if_pos hc2]
  rw [List.length_erase_of_mem hc2, hlen2]
  omega

/-- The vertical while-loop of `splice_images`, written with an explicit
fuel argument so that the iteration is structurally recursive: while
vertical candidates remain, merge the first candidate pair, remove both
constituents, and rescan.  Every iteration shrinks the working set by one
(`length_spliceStepV_lt`), so fuel equal to the length of the initial list
always reaches the candidate-free fixpoint (`identifyV_vSpliceLoop`). -/
def vSpliceLoopAux : Nat → List ImageRec → List ImageRec
  | 0, l => l
  | fuel + 1, l =>
    match identify_images_to_vertically_splice l with
    | [] => l
    | c :: _ => vSpliceLoopAux fuel (spliceStepV l c)

/-- The vertical while-loop of `splice_images`, run with enough fuel. -/
def vSpliceLoop (l : List ImageRec) : List ImageRec := vSpliceLoopAux l.length l

/-- The horizontal while-loop of `splice_images`, with fuel. -/
def hSpliceLoopAux : Nat → List ImageRec → List ImageRec
  | 0, l => l
  | fuel + 1, l =>
    match identify_images_to_horizontally_splice l with
    | [] => l
    | c :: _ => hSpliceLoopAux fuel (spliceStepH l c)

/-- The horizontal while-loop of `splice_images`, run with enough fuel. -/
def hSpliceLoop (l : List ImageRec) : List ImageRec := hSpliceLoopAux l.length l

theorem length_spliceStepV_lt {l : List ImageRec} {c : ImageRec × ImageRec}
    {rest : List (ImageRec × ImageRec)}
    (h : identify_images_to_vertically_splice l = c :: rest) :
    (spliceStepV l c).length < l.length := by
  have hc : c ∈ identify_images_to_vertically_splice l := by
    rw [h]; exact List.mem_cons_self _ _
  have hm := mem_identifyV_spec hc
  exact length_removeSpliced_lt _ hm.1 hm.2.1 hm.2.2

theorem length_spliceStepH_lt {l : List ImageRec} {c : ImageRec × ImageRec}
    {rest : List (ImageRec × ImageRec)}
    (h : identify_images_to_horizontally_splice l = c :: rest) :
    (spliceStepH l c).length < l.length := by
  have hc : c ∈ identify_images_to_horizontally_splice l := by
    rw [h]; exact List.mem_cons_self _ _
  have hm := mem_identifyH_spec hc
  exact length_removeSpliced_lt _ hm.1 hm.2.1 hm.2.2

theorem vSpliceLoopAux_fixpoint :
    ∀ (fuel : Nat) (l : List ImageRec), l.length ≤ fuel →
      identify_images_to_vertically_splice (vSpliceLoopAux fuel l) = [] := by
  intro fuel
  induction fuel with
  | zero =>
    intro l hl
    have : l = [] := List.length_eq_zero.1 (Nat.le_zero.1 hl)
    subst this
    rfl
  | succ fuel ih =>
    intro l hl
    rw [vSpliceLoopAux]
    cases h : identify_images_to_vertically_splice l with
    | nil => exact h
    | cons c rest =>
      exact ih _ (by have := length_spliceStepV_lt h; omega)

theorem hSpliceLoopAux_fixpoint :
    ∀ (fuel : Nat) (l : List ImageRec), l.length ≤ fuel →
      identify_images_to_horizontally_splice (hSpliceLoopAux fuel l) = [] := by
  intro fuel
  induction fuel with
  | zero =>
    intro l hl
    have : l = [] := List.length_eq_zero.1 (Nat.le_zero.1 hl)
    subst this
    rfl
  | succ fuel ih =>
    intro l hl
    rw [hSpliceLoopAux]
    cases h : identify_images_to_horizontally_splice l with
    | nil => exact h
    | cons c rest =>
      exact ih _ (by have := length_spliceStepH_lt h; omega)

theorem identifyV_vSpliceLoop (l : List ImageRec) :
    identify_images_to_vertically_splice (vSpliceLoop l) = [] :=
  vSpliceLoopAux_fixpoint l.length l le_rfl

theorem identifyH_hSpliceLoop (l : List ImageRec) :
    identify_images_to_horizontally_splice (hSpliceLoop l) = [] :=
  hSpliceLoopAux_fixpoint l.length l le_rfl

/-- `splice_images`: run the vertical merge loop to exhaustion, then the
horizontal merge loop over the vertically consolidated set. -/
def splice_images (image_list : List ImageRec) : List ImageRec :=
  hSpliceLoop (vSpliceLoop image_list)

/-- Sort key of `order_images`:
`sorted(image_list, key=lambda x: (x['page_number'], x['y0'], x['x0']))`. -/
def imageSortKey (image : ImageRec) : SortKey := (image.page_number, image.y0, image.x0)

/-- `order_images` on record values: stably sort by
`(page_number, y0, x0)` and assign `image_number = position + 1` in sorted
order. -/
def order_images (image_list : List ImageRec) : List ImageRec :=
  let ordered_image_list := sortStable sortKeyLt imageSortKey image_list
  ordered_image_list.enum.map (fun p => { p.2 with image_number := some (p.1 + 1) })

/-- An explicit store of image dictionaries, used to model Python object
identity: a Python list of dictionaries is a list of addresses into the
store, and in-place mutation of a dictionary is an update of the store.  -/
abbrev ImageStore := List ImageRec

/-- Setting `image['image_number'] = n` on a dictionary. -/
def withImageNumber (r : ImageRec) (n : Nat) : ImageRec := { r with image_number := some n }

/-- Setting `image['candidate_labels'] = labels` on a dictionary. -/
def withCandidateLabels (r : ImageRec) (labels : List LabelCandidate) : ImageRec :=
  { r with candidate_labels := some labels }

/-- `order_images` on the store model: `sorted` builds a new list of the
same dictionary objects (sort keys read the store before any mutation),
and the numbering loop then mutates each listed dictionary in place. -/
def order_images_heap (store : ImageStore) (addrs : List Nat) : ImageStore × List Nat :=
  let sorted := sortStable sortKeyLt (fun a => imageSortKey (store.getD a default)) addrs
  let store' := sorted.enum.foldl
    (fun st p => st.set p.2 (withImageNumber (st.getD p.2 default) (p.1 + 1))) store
  (store', sorted)

/-- `get_distance_from_line_to_image`: zero if the vertical center of the
line lies strictly inside the image's vertical span, else the distance
from the center to the nearest of the image's top and bottom edges. -/
def get_distance_from_line_to_image (line : LineRec) (image : ImageRec) : Rat :=
  let line_y_center := (line.top + line.bottom) / 2
  if line_y_center > image.top ∧ line_y_center < image.bottom then 0
  else min |line_y_center - image.top| |line_y_center - image.bottom|

/-- The rows scanned by `extract_figure_labels` for a given image, each
paired with its `distance` column: the lines of the image's page (with
their unshifted distance), followed by the lines of the next page whose
`top`/`bottom` are shifted by the maximum `bottom` of the page lines
before their distance is computed.  pandas `Series.max()` of an empty
column is `NaN`; the model uses `0` for that case, and theorems about the
shifted rows assume the image's page has at least one line. -/
def pageMaxBottom (image : ImageRec) (lines : List LineRec) : Rat :=
  ((((lines.filter (fun l => l.page_number == image.page_number)).map
    (fun l => l.bottom)).max?).getD 0)

/-- Shifting a next-page line down by the estimated page height:
`next_page_lines['top'] += page_height; next_page_lines['bottom'] += page_height`. -/
def shiftLineBy (l : LineRec) (h : Rat) : LineRec :=
  { l with top := l.top + h, bottom := l.bottom + h }

def linesWithDistance (image : ImageRec) (lines : List LineRec) : List (LineRec × Rat) :=
  let page_lines := lines.filter (fun l => l.page_number == image.page_number)
  let next_page_lines := lines.filter (fun l => l.page_number == image.page_number + 1)
  let shifted := next_page_lines.map (fun l => shiftLineBy l (pageMaxBottom image lines))
  page_lines.map (fun l => (l, get_distance_from_line_to_image l image)) ++
    shifted.map (fun l => (l, get_distance_from_line_to_image l image))

/-- The label value of the candidate emitted for the indicator word at
position `i` of `words`: the next word `words[i + 1]`, stripped to its
alphanumeric characters and truncated to at most two characters. -/
def truncatedLabel (words : List String) (i : Nat) : String :=
  let label0 := stripNonAlnum (words.getD (i + 1) "")
  if 2 < label0.length then label0.take 2 else label0

/-- The candidate dictionary appended by `extract_figure_labels` for the
indicator word at position `i` of the row's word list. -/
def mkCand (row : LineRec) (distance : Rat) (words : List String) (i : Nat) :
    LabelCandidate :=
  { page_number := row.page_number
    line_number := row.line_number
    word_number := i
    distance := distance
    label := truncatedLabel words i }

/-- The per-row inner loop of `extract_figure_labels`: split the lowered
text into words; for every word whose alphanumeric stripping is one of the
`FIGURE_INDICATORS` and which is not the last word of the line, append one
label candidate. -/
def labelsFromRow (row : LineRec) (distance : Rat) : List LabelCandidate :=
  let words := pySplit (pyLower row.text)
  words.enum.foldl
    (fun labels p =>
      if stripNonAlnum p.2 ∈ FIGURE_INDICATORS then
        if p.1 < words.length - 1 then labels ++ [mkCand row distance words p.1]
        else labels
      else labels)
    []

/-- `extract_figure_labels`: keep the scanned rows whose lowered text
matches the regex `figure|fig|fig.`, then run the word scan over each kept
row, accumulating the candidates in row order. -/
def extract_figure_labels (image : ImageRec) (lines : List LineRec) :
    List LabelCandidate :=
  let figure_lines := (linesWithDistance image lines).filter
    (fun p => matchesFigureRegex (pyLower p.1.text))
  figure_lines.foldl (fun labels p => labels ++ labelsFromRow p.1 p.2) []

/-- `find_candidate_labels_for_figures` on the store model: the loop
mutates each listed dictionary in place, setting its `candidate_labels`
key, and the function returns the input list object itself. -/
def find_candidate_labels_for_figures_heap (store : ImageStore) (addrs : List Nat)
    (lines : List LineRec) : ImageStore × List Nat :=
  (addrs.foldl
    (fun st a => st.set a (withCandidateLabels (st.getD a default)
      (extract_figure_labels (st.getD a default) lines))) store,
   addrs)

/-- Sort key of the pandas `groupby(['page_number', 'top', 'bottom'])`. -/
def wordSortKey (w : WordRec) : SortKey := (w.page_number, w.top, w.bottom)

/-- The `(page_number, top, bottom)` key of a produced line row. -/
def lineSortKey (l : LineRec) : SortKey := (l.page_number, l.top, l.bottom)

/-- Strict comparison used for the per-group `sort_values('x0')`. -/
def ratLt (a b : Rat) : Bool := decide (a < b)

/-- `word_df_to_line_df`: group the words by the exact
`(page_number, top, bottom)` triple, visit the groups in ascending key
order (pandas `groupby` sorts the group keys), sort each group by `x0`,
join the group's word texts with single spaces, and number the resulting
rows consecutively from 0.  `mkLineRec` builds the row of one group from
its position and key. -/
def mkLineRec (word_df : List WordRec) (p : Nat × SortKey) : LineRec :=
  let group := sortStable ratLt (fun w => w.x0)
    (word_df.filter (fun w => wordSortKey w == p.2))
  { line_number := p.1
    page_number := p.2.1
    top := p.2.2.1
    bottom := p.2.2.2
    text := String.intercalate " " (group.map (fun w => w.text)) }

def word_df_to_line_df (word_df : List WordRec) : List LineRec :=
  let keys := sortStable sortKeyLt id ((word_df.map wordSortKey).dedup)
  keys.enum.map (mkLineRec word_df)

theorem getD_set_ne_addr (st : ImageStore) (b : Nat) (v : ImageRec) (a : Nat)
    (h : a ≠ b) : (st.set b v).getD a default = st.getD a default := by
  rw [List.getD_eq_getElem?_getD, List.getD_eq_getElem?_getD,
    List.getElem?_set_ne (fun e => h e.symm)]

theorem getD_set_eq_addr (st : ImageStore) (a : Nat) (v : ImageRec)
    (h : a < st.length) : (st.set a v).getD a default = v := by
  rw [List.getD_eq_getElem?_getD, List.getElem?_set_eq h]
  rfl

theorem numberFold_getD_not_mem :
    ∀ (ps : List (Nat × Nat)) (st : ImageStore) (a : Nat),
      (∀ p ∈ ps, p.2 ≠ a) →
      (ps.foldl (fun st p =>
          st.set p.2 (withImageNumber (st.getD p.2 default) (p.1 + 1))) st).getD a default =
        st.getD a default := by
  intro ps
  induction ps with
  | nil => intro st a _; rfl
  | cons q ps ih =>
    intro st a hne
    rw [List.foldl_cons, ih _ _ (fun p hp => hne p (List.mem_cons_of_mem _ hp)),
      getD_set_ne_addr _ _ _ _ (fun e => hne q (List.mem_cons_self _ _) e.symm)]

theorem numberFold_getD_mem :
    ∀ (ps : List (Nat × Nat)) (st : ImageStore) (i a : Nat),
      (ps.map Prod.snd).Nodup → (i, a) ∈ ps → a < st.length →
      (ps.foldl (fun st p =>
          st.set p.2 (withImageNumber (st.getD p.2 default) (p.1 + 1))) st).getD a default =
        withImageNumber (st.getD a default) (i + 1) := by
  intro ps
  induction ps with
  | nil => intro st i a _ hm; simp at hm
  | cons q ps ih =>
    intro st i a hnd hm hlen
    rw [List.map_cons, List.nodup_cons] at hnd
    rcases List.mem_cons.1 hm with he | hm
    · have hq2 : q.2 = a := by rw [← he]
      have hq1 : q.1 = i := by rw [← he]
      subst hq2
      subst hq1
      rw [List.foldl_cons,
        numberFold_getD_not_mem ps _ q.2
          (fun p hp e => hnd.1 (e ▸ List.mem_map_of_mem Prod.snd hp)),
        getD_set_eq_addr _ _ _ hlen]
    · have hne : a ≠ q.2 := by
        intro e
        exact hnd.1 (e ▸ List.mem_map_of_mem Prod.snd hm)
      rw [List.foldl_cons, ih _ i a hnd.2 hm (by simpa using hlen),
        getD_set_ne_addr _ _ _ _ hne]

theorem labelFold_getD_not_mem (lines : List LineRec) :
    ∀ (ps : List Nat) (st : ImageStore) (a : Nat), a ∉ ps →
      (ps.foldl (fun st b =>
          st.set b (withCandidateLabels (st.getD b default)
            (extract_figure_labels (st.getD b default) lines))) st).getD a default =
        st.getD a default := by
  intro ps
  induction ps with
  | nil => intro st a _; rfl
  | cons b ps ih =>
    intro st a hna
    rw [List.foldl_cons, ih _ _ (fun h => hna (List.mem_cons_of_mem _ h)),
      getD_set_ne_addr _ _ _ _ (fun e => hna (by rw [e]; exact List.mem_cons_self _ _))]

theorem labelFold_getD_mem (lines : List LineRec) :
    ∀ (ps : List Nat) (st : ImageStore) (a : Nat), ps.Nodup → a ∈ ps → a < st.length →
      (ps.foldl (fun st b =>
          st.set b (withCandidateLabels (st.getD b default)
            (extract_figure_labels (st.getD b default) lines))) st).getD a default =
        withCandidateLabels (st.getD a default)
          (extract_figure_labels (st.getD a default) lines) := by
  intro ps
  induction ps with
  | nil => intro st a _ hm; simp at hm
  | cons b ps ih =>
    intro st a hnd hm hlen
    rw [List.nodup_cons] at hnd
    rcases List.mem_cons.1 hm with he | hm
    · subst he
      rw [List.foldl_cons, labelFold_getD_not_mem lines ps _ a hnd.1,
        getD_set_eq_addr _ _ _ hlen]
    · have hne : a ≠ b := fun e => hnd.1 (e ▸ hm)
      rw [List.foldl_cons, ih _ a hnd.2 hm (by simpa using hlen),
        getD_set_ne_addr _ _ _ _ hne]

theorem labelsFromRow_foldl_eq (row : LineRec) (d : Rat) (words : List String) :
    ∀ (L : List (Nat × String)) (acc : List LabelCandidate),
      L.foldl
        (fun labels p =>
          if stripNonAlnum p.2 ∈ FIGURE_INDICATORS then
            if p.1 < words.length - 1 then labels ++ [mkCand row d words p.1]
            else labels
          else labels) acc =
      acc ++ L.filterMap (fun p =>
        if stripNonAlnum p.2 ∈ FIGURE_INDICATORS ∧ p.1 < words.length - 1 then
          some (mkCand row d words p.1)
        else none) := by
  intro L
  induction L with
  | nil => intro acc; simp
  | cons q L ih =>
    intro acc
    rw [List.foldl_cons, List.filterMap_cons]
    by_cases hA : stripNonAlnum q.2 ∈ FIGURE_INDICATORS
    · by_cases hB : q.1 < words.length - 1
      · rw [if_pos hA, if_pos hB, ih, if_pos ⟨hA, hB⟩]
        simp
      · rw [if_pos hA, if_neg hB, ih, if_neg (fun hc => hB hc.2)]
    · rw [if_neg hA, ih, if_neg (fun hc => hA hc.1)]

theorem labelsFromRow_eq (row : LineRec) (d : Rat) :
    labelsFromRow row d =
      (pySplit (pyLower row.text)).enum.filterMap (fun p =>
        if stripNonAlnum p.2 ∈ FIGURE_INDICATORS ∧
            p.1 < (pySplit (pyLower row.text)).length - 1 then
          some (mkCand row d (pySplit (pyLower row.text)) p.1)
        else none) := by
  rw [labelsFromRow]
  exact (labelsFromRow_foldl_eq row d _ _ []).trans (List.nil_append _)

theorem foldl_append_bind (f : β → List γ) :
    ∀ (L : List β) (acc : List γ),
      L.foldl (fun a b => a ++ f b) acc = acc ++ L.bind f := by
  intro L
  induction L with
  | nil => intro acc; simp
  | cons x xs ih =>
    intro acc
    rw [List.foldl_cons, ih]
    simp

theorem extract_figure_labels_eq (image : ImageRec) (lines : List LineRec) :
    extract_figure_labels image lines =
      ((linesWithDistance image lines).filter
        (fun p => matchesFigureRegex (pyLower p.1.text))).bind
        (fun p => labelsFromRow p.1 p.2) := by
  rw [extract_figure_labels]
  exact (foldl_append_bind _ _ []).trans (List.nil_append _)

theorem filter_bind_eq (p : β → Bool) (f : β → List γ) :
    ∀ L : List β, (L.filter p).bind f =
      L.bind (fun x => if p x = true then f x else []) := by
  intro L
  induction L with
  | nil => rfl
  | cons x xs ih =>
    rw [List.filter_cons]
    cases h : p x <;> simp [h, ih]

theorem listHasInfix_mono {p1 p2 : List Char} (h : p1 <+: p2) :
    ∀ l, listHasInfix p2 l = true → listHasInfix p1 l = true := by
  intro l
  induction l with
  | nil =>
    intro hl
    rw [listHasInfix] at hl ⊢
    rw [List.isEmpty_iff] at hl ⊢
    subst hl
    exact List.prefix_nil.1 h
  | cons c cs ih =>
    intro hl
    rw [listHasInfix] at hl ⊢
    simp only [Bool.or_eq_true] at hl ⊢
    rcases hl with hp | hr
    · exact Or.inl
        (List.isPrefixOf_iff_prefix.2 (h.trans (List.isPrefixOf_iff_prefix.1 hp)))
    · exact Or.inr (ih hr)

theorem hasFigDotMatch_imp_fig :
    ∀ l, hasFigDotMatch l = true → listHasInfix "fig".data l = true := by
  intro l
  induction l with
  | nil => intro hl; exact absurd hl (by simp [hasFigDotMatch])
  | cons c cs ih =>
    intro hl
    rw [hasFigDotMatch] at hl
    simp only [Bool.or_eq_true] at hl
    rcases hl with hp | hr
    · rw [listHasInfix]
      simp only [Bool.or_eq_true]
      refine Or.inl ?_
      match c, cs, hp with
      | f, i :: g :: d :: rest, hp =>
        simp only [figDotMatchAt, Bool.and_eq_true, beq_iff_eq] at hp
        obtain ⟨⟨⟨h1, h2⟩, h3⟩, _⟩ := hp
        subst h1
        subst h2
        subst h3
        simp [List.isPrefixOf]
    · rw [listHasInfix]
      simp only [Bool.or_eq_true]
      exact Or.inr (ih hr)

theorem matchesFigureRegex_eq_contains_fig (s : String) :
    matchesFigureRegex s = listHasInfix "fig".data s.data := by
  rw [matchesFigureRegex]
  cases hb : listHasInfix "fig".data s.data
  · have hfig : ("fig".data : List Char) <+: "figure".data := ⟨['u', 'r', 'e'], by decide⟩
    have ha : listHasInfix "figure".data s.data = false := by
      rw [Bool.eq_false_iff]
      intro h
      rw [listHasInfix_mono hfig s.data h] at hb
      exact absurd hb (by decide)
    have hc : hasFigDotMatch s.data = false := by
      rw [Bool.eq_false_iff]
      intro h
      rw [hasFigDotMatch_imp_fig s.data h] at hb
      exact absurd hb (by decide)
    rw [ha, hc]
    rfl
  · simp [hb]

theorem ratLt_irrefl (a : Rat) : ratLt a a = false := by simp [ratLt]

theorem ratLt_asymm (a b : Rat) (h : ratLt a b = true) : ratLt b a = false := by
  simp only [ratLt, decide_eq_true_eq] at h
  simp [ratLt, le_of_lt h]

theorem ratLt_neg_trans (a b c : Rat) (h1 : ratLt c b = false) (h2 : ratLt b a = false) :
    ratLt c a = false := by
  simp only [ratLt, decide_eq_false_iff_not, not_lt] at h1 h2
  simp [ratLt, not_lt, le_trans h2 h1]

theorem get_distance_nonneg (line : LineRec) (image : ImageRec) :
    0 ≤ get_distance_from_line_to_image line image := by
  rw [get_distance_from_line_to_image]
  split
  · exact le_refl 0
  · exact le_min (abs_nonneg _) (abs_nonneg _)

theorem mem_labelsFromRow {cand : LabelCandidate} {row : LineRec} {d : Rat}
    (h : cand ∈ labelsFromRow row d) :
    cand.page_number = row.page_number ∧ cand.distance = d := by
  rw [labelsFromRow_eq] at h
  rcases List.mem_filterMap.1 h with ⟨q, _, hq⟩
  split at hq
  · have he : mkCand row d (pySplit (pyLower row.text)) q.1 = cand :=
      Option.some_inj.1 hq
    rw [← he]
    exact ⟨rfl, rfl⟩
  · exact absurd hq (by simp)

theorem mem_linesWithDistance {p : LineRec × Rat} {image : ImageRec}
    {lines : List LineRec} (h : p ∈ linesWithDistance image lines) :
    (p.1.page_number = image.page_number ∨
      p.1.page_number = image.page_number + 1) ∧
      p.2 = get_distance_from_line_to_image p.1 image := by
  rw [linesWithDistance] at h
  rcases List.mem_append.1 h with h | h
  · rcases List.mem_map.1 h with ⟨l, hl, he⟩
    have hpage : (l.page_number == image.page_number) = true :=
      (List.mem_filter.1 hl).2
    rw [← he]
    exact ⟨Or.inl (beq_iff_eq.1 hpage), rfl⟩
  · rcases List.mem_map.1 h with ⟨l', hl', he⟩
    rcases List.mem_map.1 hl' with ⟨l, hl, he'⟩
    have hpage : (l.page_number == image.page_number + 1) = true :=
      (List.mem_filter.1 hl).2
    rw [← he, ← he']
    exact ⟨Or.inr (beq_iff_eq.1 hpage), rfl⟩

theorem linesWithDistance_filter_pages (image : ImageRec) (lines : List LineRec) :
    linesWithDistance image (lines.filter (fun l =>
      l.page_number == image.page_number ||
        l.page_number == image.page_number + 1)) =
    linesWithDistance image lines := by
  have h1 : (lines.filter (fun l =>
      l.page_number == image.page_number ||
        l.page_number == image.page_number + 1)).filter
      (fun l => l.page_number == image.page_number) =
      lines.filter (fun l => l.page_number == image.page_number) := by
    rw [List.filter_filter]
    refine List.filter_congr ?_
    intro a _
    cases h : a.page_number == image.page_number <;> simp [h]
  have h2 : (lines.filter (fun l =>
      l.page_number == image.page_number ||
        l.page_number == image.page_number + 1)).filter
      (fun l => l.page_number == image.page_number + 1) =
      lines.filter (fun l => l.page_number == image.page_number + 1) := by
    rw [List.filter_filter]
    refine List.filter_congr ?_
    intro a _
    cases h : a.page_number == image.page_number + 1 <;> simp [h]
  have hmb : pageMaxBottom image (lines.filter (fun l =>
      l.page_number == image.page_number ||
        l.page_number == image.page_number + 1)) = pageMaxBottom image lines := by
    rw [pageMaxBottom, pageMaxBottom, h1]
  rw [linesWithDistance, linesWithDistance, h1, h2, hmb]

/-- A tile with every geometric field zeroed; the concrete inputs below
override the fields that matter. -/
def baseImage : ImageRec :=
  { page_number := 1, x0 := 0, x1 := 0, y0 := 0, y1 := 0, top := 0, bottom := 0,
    doctop := 0, width := 0, height := 0, image := { width := 0, height := 0 } }

/-- Upper piece of a vertical-splice candidate pair whose bitmap is 100
pixels wide. -/
def vTileTop : ImageRec :=
  { baseImage with
      top := 0
      bottom := 50
      width := 80
      height := 50
      image := { width := 100, height := 50 } }

/-- Lower piece of the same candidate pair (same page-space width, so the
pair qualifies), whose bitmap is only 50 pixels wide. -/
def vTileBottom : ImageRec :=
  { baseImage with
      top := 50
      bottom := 100
      width := 80
      height := 50
      image := { width := 50, height := 50 } }

/-- A tile of page-space height 50 used to exhibit the doubled `height`
field of a vertical splice. -/
def vTileTall : ImageRec :=
  { baseImage with
      top := 0
      bottom := 50
      width := 80
      height := 50
      image := { width := 100, height := 50 } }

/-- A tile of page-space height 30, splicable under `vTileTall`. -/
def vTileShort : ImageRec :=
  { baseImage with
      top := 50
      bottom := 80
      width := 80
      height := 30
      image := { width := 100, height := 30 } }

/-- A lone tile with no splice partner. -/
def soloTile : ImageRec := baseImage

/-- Claim C2.  The spec calls a non-splice-axis dimension mismatch a hard
error that aborts the merge.  The code performs no such check: the pair
`(vTileTop, vTileBottom)` is a vertical-splice candidate (the page-space
widths agree) whose bitmaps are 100 and 50 pixels wide, and `splice_images`
returns the merged bitmap — 100 pixels wide, disagreeing with the bottom
constituent — instead of signalling anything. -/
theorem C2_counterexample :
    identify_images_to_vertically_splice [vTileTop, vTileBottom] =
      [(vTileTop, vTileBottom)] ∧
    splice_images [vTileTop, vTileBottom] =
      [vertically_splice_image_pair vTileTop vTileBottom] ∧
    (vertically_splice_image_pair vTileTop vTileBottom).image.width = 100 ∧
    vTileBottom.image.width = 50 :=
  of_decide_eq_true (by with_unfolding_all rfl)

/-- Claim C2, amended.  The merge functions are total and never signal a
dimension mismatch: the merged bitmap's non-splice-axis dimension always
equals the first (top, resp. left) tile's bitmap dimension, the other
tile being silently clipped or padded by `Image.paste`, and the splice-axis
dimension is the sum of the two bitmap dimensions. -/
theorem C2_amended (t b l r : ImageRec) :
    (vertically_splice_image_pair t b).image.width = t.image.width ∧
    (vertically_splice_image_pair t b).image.height =
      t.image.height + b.image.height ∧
    (horizontally_splice_image_pair l r).image.height = l.image.height ∧
    (horizontally_splice_image_pair l r).image.width =
      l.image.width + r.image.width :=
  ⟨rfl, rfl, rfl, rfl⟩

/-- Claim C9.  After a vertical splice the merged record's `height` field
is twice the top tile's height — `new_image['height'] + new_image['height']`
on the copy of the top record — not the sum of the two heights, while the
merged bitmap's pixel height is the true sum; whenever the two heights
differ the stored field therefore disagrees with the sum, and the
horizontal-candidate test (`identify_images_to_horizontally_splice`)
compares exactly this doubled field. -/
theorem C9_claim (t b : ImageRec) :
    (vertically_splice_image_pair t b).height = t.height + t.height ∧
    (vertically_splice_image_pair t b).image.height =
      t.image.height + b.image.height ∧
    (t.height ≠ b.height →
      (vertically_splice_image_pair t b).height ≠ t.height + b.height) ∧
    (∀ other : ImageRec,
      horizontal_candidate_cond (vertically_splice_image_pair t b) other =
        (t.page_number == other.page_number &&
          decide (|(t.height + t.height) - other.height| < 1) &&
          decide (|t.x1 - other.x0| < 1))) := by
  refine ⟨rfl, rfl, ?_, fun other => rfl⟩
  intro hne heq
  exact hne (add_left_cancel heq)

/-- Witness for C9 at a concrete mismatched pair (heights 50 and 30). -/
theorem C9_witness :
    vTileTall.height ≠ vTileShort.height ∧
    (vertically_splice_image_pair vTileTall vTileShort).height ≠
      vTileTall.height + vTileShort.height :=
  ⟨of_decide_eq_true (by with_unfolding_all rfl),
   (C9_claim vTileTall vTileShort).2.2.1
     (of_decide_eq_true (by with_unfolding_all rfl))⟩

theorem vSpliceLoopAux_of_no_candidates (fuel : Nat) (l : List ImageRec)
    (h : identify_images_to_vertically_splice l = []) :
    vSpliceLoopAux fuel l = l := by
  cases fuel with
  | zero => rfl
  | succ n => rw [vSpliceLoopAux, h]

theorem hSpliceLoopAux_of_no_candidates (fuel : Nat) (l : List ImageRec)
    (h : identify_images_to_horizontally_splice l = []) :
    hSpliceLoopAux fuel l = l := by
  cases fuel with
  | zero => rfl
  | succ n => rw [hSpliceLoopAux, h]

/-- Claim C7.  Splice idempotence: if no pair of the input qualifies as a
vertical-splice candidate and no pair qualifies as a horizontal-splice
candidate, `splice_images` returns the input list unchanged. -/
theorem C7_claim (image_list : List ImageRec)
    (hv : identify_images_to_vertically_splice image_list = [])
    (hh : identify_images_to_horizontally_splice image_list = []) :
    splice_images image_list = image_list := by
  rw [splice_images, vSpliceLoop, vSpliceLoopAux_of_no_candidates _ _ hv,
    hSpliceLoop, hSpliceLoopAux_of_no_candidates _ _ hh]

/-- Witness for C7: a single tile has no candidate pairs and passes
through `splice_images` unchanged. -/
theorem C7_witness :
    identify_images_to_vertically_splice [soloTile] = [] ∧
    identify_images_to_horizontally_splice [soloTile] = [] ∧
    splice_images [soloTile] = [soloTile] :=
  ⟨by decide, by decide, C7_claim [soloTile] (by decide) (by decide)⟩

/-- Claim C8.  `splice_images` terminates on every finite input: it runs
the vertical phase to its candidate-free fixpoint and then the horizontal
phase to its candidate-free fixpoint, and each iteration of either loop —
append the merged record, then remove both originals — strictly shrinks
the working set. -/
theorem C8_claim (image_list : List ImageRec) :
    identify_images_to_vertically_splice (vSpliceLoop image_list) = [] ∧
    identify_images_to_horizontally_splice (splice_images image_list) = [] ∧
    splice_images image_list = hSpliceLoop (vSpliceLoop image_list) ∧
    (∀ c rest, identify_images_to_vertically_splice image_list = c :: rest →
      (spliceStepV image_list c).length < image_list.length) ∧
    (∀ c rest, identify_images_to_horizontally_splice image_list = c :: rest →
      (spliceStepH image_list c).length < image_list.length) :=
  ⟨identifyV_vSpliceLoop image_list,
   identifyH_hSpliceLoop (vSpliceLoop image_list),
   rfl,
   fun _ _ h => length_spliceStepV_lt h,
   fun _ _ h => length_spliceStepH_lt h⟩

/-- Witness for C8 at a concrete candidate pair: one iteration of the
vertical loop shrinks the two-tile working set. -/
theorem C8_witness :
    identify_images_to_vertically_splice [vTileTop, vTileBottom] =
      [(vTileTop, vTileBottom)] ∧
    (spliceStepV [vTileTop, vTileBottom] (vTileTop, vTileBottom)).length <
      ([vTileTop, vTileBottom] : List ImageRec).length :=
  ⟨of_decide_eq_true (by with_unfolding_all rfl),
   (C8_claim [vTileTop, vTileBottom]).2.2.2.1 (vTileTop, vTileBottom) []
     (of_decide_eq_true (by with_unfolding_all rfl))⟩

/-- First image of the ordering literal case: page 2, `y0 = 15`, `x0 = 10`. -/
def ordImgA : ImageRec := { baseImage with page_number := 2, y0 := 15, x0 := 10 }

/-- Second image of the ordering literal case: page 1, `y0 = 10`, `x0 = 20`. -/
def ordImgB : ImageRec := { baseImage with page_number := 1, y0 := 10, x0 := 20 }

/-- Third image of the ordering literal case: page 1, `y0 = 5`, `x0 = 30`. -/
def ordImgC : ImageRec := { baseImage with page_number := 1, y0 := 5, x0 := 30 }

/-- Fourth image of the ordering literal case: page 2, `y0 = 20`, `x0 = 5`. -/
def ordImgD : ImageRec := { baseImage with page_number := 2, y0 := 20, x0 := 5 }

/-- Fifth image of the ordering literal case: page 1, `y0 = 5`, `x0 = 10`. -/
def ordImgE : ImageRec := { baseImage with page_number := 1, y0 := 5, x0 := 10 }

/-- The five-image input of the ordering literal case. -/
def ordInput : List ImageRec := [ordImgA, ordImgB, ordImgC, ordImgD, ordImgE]

/-- The expected output of the ordering literal case. -/
def ordExpected : List ImageRec :=
  [{ ordImgE with image_number := some 1 },
   { ordImgC with image_number := some 2 },
   { ordImgB with image_number := some 3 },
   { ordImgA with image_number := some 4 },
   { ordImgD with image_number := some 5 }]

/-- Claim C4.  `order_images` stably sorts by
`(page_number, y0, x0)` and then assigns `image_number` values
`1, 2, 3, ...` in sorted order: the output is the numbering of the stable
sort, the sort is a permutation of the input, it is sorted under the
lexicographic key order, filtering it by any single key value returns that
key's records in input order (stability of ties), the assigned numbers are
exactly `1` through the length of the input, and on the five-image literal
input the result is the stated assignment. -/
theorem C4_claim (image_list : List ImageRec) :
    order_images image_list =
      (sortStable sortKeyLt imageSortKey image_list).enum.map
        (fun p => { p.2 with image_number := some (p.1 + 1) }) ∧
    List.Perm (sortStable sortKeyLt imageSortKey image_list) image_list ∧
    (order_images image_list).Pairwise
      (fun a b => sortKeyLt (imageSortKey b) (imageSortKey a) = false) ∧
    (∀ c : SortKey,
      (sortStable sortKeyLt imageSortKey image_list).filter
          (fun r => decide (imageSortKey r = c)) =
        image_list.filter (fun r => decide (imageSortKey r = c))) ∧
    (order_images image_list).map (fun r => r.image_number) =
      (List.range image_list.length).map (fun i => some (i + 1)) ∧
    order_images ordInput = ordExpected := by
  refine ⟨rfl, sortStable_perm _ _ _, ?_, ?_, ?_, ?_⟩
  · have hkeys : (order_images image_list).map imageSortKey =
        (sortStable sortKeyLt imageSortKey image_list).map imageSortKey := by
      rw [order_images, List.map_map]
      rw [show (imageSortKey ∘ fun p : Nat × ImageRec =>
          { p.2 with image_number := some (p.1 + 1) }) =
          imageSortKey ∘ Prod.snd from rfl]
      rw [← List.map_map, List.enum_map_snd]
    have hs := sortStable_pairwise sortKeyLt imageSortKey sortKeyLt_asymm
      sortKeyLt_neg_trans image_list
    have hmap : ((order_images image_list).map imageSortKey).Pairwise
        (fun a b => sortKeyLt b a = false) := by
      rw [hkeys]
      exact (List.pairwise_map).2 hs
    exact (List.pairwise_map).1 hmap
  · exact fun c => sortStable_filter_key sortKeyLt imageSortKey sortKeyLt_irrefl c _
  · rw [order_images, List.map_map]
    rw [show ((fun r : ImageRec => r.image_number) ∘ fun p : Nat × ImageRec =>
        { p.2 with image_number := some (p.1 + 1) }) =
        (fun i => some (i + 1)) ∘ Prod.fst from rfl]
    rw [← List.map_map, List.enum_map_fst,
      (sortStable_perm sortKeyLt imageSortKey image_list).length_eq]
  · decide

/-- A dictionary with no `image_number` key yet, used to exhibit the
in-place mutation of the ordering and labeling stages. -/
def mutTile : ImageRec := baseImage

/-- Claim C3.  The spec says the ordering and labeling stages never mutate
their input records.  On the store model of Python object identity the
numbering loop of `order_images` mutates the listed dictionary in place:
after running it on a one-element store, the input record has changed
(it acquired `image_number = 1`). -/
theorem C3_counterexample :
    (order_images_heap [mutTile] [0]).1.getD 0 default ≠ mutTile ∧
    (order_images_heap [mutTile] [0]).1.getD 0 default =
      withImageNumber mutTile 1 := by
  refine ⟨?_, by decide⟩
  intro h
  rw [show (order_images_heap [mutTile] [0]).1.getD 0 default =
    withImageNumber mutTile 1 from by decide] at h
  exact absurd (congrArg ImageRec.image_number h) (by decide)

/-- Claim C3, amended.  Both stages mutate their input dictionaries in
place and return lists of those same dictionaries: `order_images` returns
a permutation of the input addresses, adds `image_number` to every listed
record (changing nothing else about it) and leaves unlisted records
untouched; `find_candidate_labels_for_figures` returns the very input
list, sets `candidate_labels` on every listed record to the labels
extracted for it, and leaves unlisted records untouched. -/
theorem C3_amended (store : ImageStore) (addrs : List Nat) (lines : List LineRec)
    (hval : ∀ a ∈ addrs, a < store.length) (hnd : addrs.Nodup) :
    List.Perm (order_images_heap store addrs).2 addrs ∧
    (∀ a ∈ addrs, ∃ n, (order_images_heap store addrs).1.getD a default =
      withImageNumber (store.getD a default) n) ∧
    (∀ a, a ∉ addrs →
      (order_images_heap store addrs).1.getD a default = store.getD a default) ∧
    (find_candidate_labels_for_figures_heap store addrs lines).2 = addrs ∧
    (∀ a ∈ addrs,
      (find_candidate_labels_for_figures_heap store addrs lines).1.getD a default =
        withCandidateLabels (store.getD a default)
          (extract_figure_labels (store.getD a default) lines)) ∧
    (∀ a, a ∉ addrs →
      (find_candidate_labels_for_figures_heap store addrs lines).1.getD a default =
        store.getD a default) := by
  have hperm : List.Perm
      (sortStable sortKeyLt (fun a => imageSortKey (store.getD a default)) addrs)
      addrs := sortStable_perm _ _ _
  refine ⟨hperm, ?_, ?_, rfl, ?_, ?_⟩
  · intro a ha
    have hmem : a ∈ sortStable sortKeyLt
        (fun a => imageSortKey (store.getD a default)) addrs :=
      hperm.mem_iff.2 ha
    rcases List.getElem_of_mem hmem with ⟨i, hi, he⟩
    have henum : (i, a) ∈ (sortStable sortKeyLt
        (fun a => imageSortKey (store.getD a default)) addrs).enum := by
      rw [List.mem_enum_iff_getElem?]
      rw [List.getElem?_eq_getElem hi, he]
    have hnds : ((sortStable sortKeyLt
        (fun a => imageSortKey (store.getD a default)) addrs).enum.map
          Prod.snd).Nodup := by
      rw [List.enum_map_snd]
      exact hperm.nodup_iff.2 hnd
    exact ⟨i + 1, numberFold_getD_mem _ store i a hnds henum (hval a ha)⟩
  · intro a ha
    refine numberFold_getD_not_mem _ store a ?_
    intro p hp he
    exact ha (hperm.mem_iff.1 (by
      have : p.2 ∈ (sortStable sortKeyLt
          (fun a => imageSortKey (store.getD a default)) addrs).enum.map
            Prod.snd := List.mem_map_of_mem Prod.snd hp
      rw [List.enum_map_snd] at this
      rw [← he]
      exact this))
  · intro a ha
    exact labelFold_getD_mem lines addrs store a hnd ha (hval a ha)
  · intro a ha
    exact labelFold_getD_not_mem lines addrs store a ha

/-- Witness for C3's amended statement at a concrete one-element store. -/
theorem C3_witness :
    (∀ a ∈ ([0] : List Nat), a < ([mutTile] : ImageStore).length) ∧
    ([0] : List Nat).Nodup ∧
    ∃ n, (order_images_heap [mutTile] [0]).1.getD 0 default =
      withImageNumber (([mutTile] : ImageStore).getD 0 default) n :=
  ⟨by decide, by decide,
   (C3_amended [mutTile] [0] [] (by decide) (by decide)).2.1 0 (by decide)⟩

/-- The image of the label-extraction literal case: page 1, vertical span
`[0, 100]`. -/
def labelImage : ImageRec := { baseImage with page_number := 1, top := 0, bottom := 100 }

/-- Line 1 of the label-extraction literal case. -/
def labelLine1 : LineRec :=
  { line_number := 1, page_number := 1, top := 20, bottom := 30,
    text := "Figure 1: This is a label" }

/-- Line 2 of the label-extraction literal case (no indicator keyword). -/
def labelLine2 : LineRec :=
  { line_number := 2, page_number := 1, top := 40, bottom := 50,
    text := "This is not a label" }

/-- Line 3 of the label-extraction literal case. -/
def labelLine3 : LineRec :=
  { line_number := 3, page_number := 1, top := 60, bottom := 70,
    text := "Fig. 2: This is another label" }

/-- The three lines of the label-extraction literal case. -/
def labelLines : List LineRec := [labelLine1, labelLine2, labelLine3]

/-- The expected candidates of the label-extraction literal case. -/
def labelExpected : List LabelCandidate :=
  [{ page_number := 1, line_number := 1, word_number := 0, distance := 0, label := "1" },
   { page_number := 1, line_number := 3, word_number := 0, distance := 0, label := "2" }]

/-- A line whose only indicator occurrence survives alphanumeric stripping
(`"f.i.g"` strips to `"fig"`) but is invisible to the substring prefilter. -/
def trickyLine : LineRec :=
  { line_number := 1, page_number := 1, top := 20, bottom := 30, text := "f.i.g 3" }

/-- Claim C1.  The claim says a candidate is produced exactly when a
stripped word matches an indicator and is not last in its line.  The code
first prefilters lines with the pandas regex `figure|fig|fig.` — a
substring test, not a stripped-word test — so the line `"f.i.g 3"`, whose
word 0 strips to the indicator `"fig"` and is not last, produces no
candidate at all. -/
theorem C1_counterexample :
    stripNonAlnum ((pySplit (pyLower trickyLine.text)).getD 0 "") ∈
      FIGURE_INDICATORS ∧
    0 < (pySplit (pyLower trickyLine.text)).length - 1 ∧
    trickyLine.page_number = labelImage.page_number ∧
    extract_figure_labels labelImage [trickyLine] = [] :=
  of_decide_eq_true (by with_unfolding_all rfl)

/-- Claim C1, amended.  Among the rows the extractor scans (its own page
and the shifted next page), one candidate is emitted per indicator-word
occurrence exactly when the row's lowered text passes the substring
prefilter — which is equivalent to containing `"fig"` — and the word,
lowercased and stripped to alphanumerics, is one of the indicators and is
not the last word; the candidate's label is the next word stripped and
truncated to two characters and its `word_number` is the indicator
position.  On the literal input, lines 1 and 3 yield labels `"1"` and
`"2"` and line 2 yields nothing. -/
theorem C1_amended (image : ImageRec) (lines : List LineRec) :
    (extract_figure_labels image lines =
      (linesWithDistance image lines).bind (fun p =>
        if matchesFigureRegex (pyLower p.1.text) = true then
          (pySplit (pyLower p.1.text)).enum.filterMap (fun q =>
            if stripNonAlnum q.2 ∈ FIGURE_INDICATORS ∧
                q.1 < (pySplit (pyLower p.1.text)).length - 1 then
              some (mkCand p.1 p.2 (pySplit (pyLower p.1.text)) q.1)
            else none)
        else [])) ∧
    (∀ s, matchesFigureRegex s = listHasInfix "fig".data s.data) ∧
    extract_figure_labels labelImage labelLines = labelExpected := by
  refine ⟨?_, matchesFigureRegex_eq_contains_fig,
    of_decide_eq_true (by with_unfolding_all rfl)⟩
  rw [extract_figure_labels_eq, filter_bind_eq]
  simp only [labelsFromRow_eq]

/-- First line of the cross-page literal case (page 1, no indicator). -/
def crossLine1 : LineRec :=
  { line_number := 1, page_number := 1, top := 20, bottom := 30,
    text := "This is not a label" }

/-- Second line of the cross-page literal case: the page-1 maximum bottom
is 150. -/
def crossLine2 : LineRec :=
  { line_number := 20, page_number := 1, top := 140, bottom := 150,
    text := "random text" }

/-- The next-page line of the cross-page literal case. -/
def crossLine3 : LineRec :=
  { line_number := 2, page_number := 2, top := 40, bottom := 50,
    text := "Fig. 3: This is a label on the next page" }

/-- The lines of the cross-page literal case. -/
def crossLines : List LineRec := [crossLine1, crossLine2, crossLine3]

/-- The expected candidate of the cross-page literal case: shifted line
top `190`, bottom `200`, center `195`, distance `195 - 100 = 95`. -/
def crossExpected : List LabelCandidate :=
  [{ page_number := 2, line_number := 2, word_number := 0, distance := 95, label := "3" }]

/-- Claim C5.  Candidates are drawn only from the image's own page and the
immediately following page; next-page lines enter the scan with `top` and
`bottom` shifted by the maximum bottom of the image page's lines; the
distance is `0` whenever the (shifted) line's vertical center lies within
the image's `[top, bottom]` span and otherwise the minimum of the center's
distances to the two edges, hence nonnegative (stated under the assumption
that the image's page has at least one line, since pandas' empty-column
maximum is `NaN`); and the literal cross-page case yields distance `95`. -/
theorem C5_claim (image : ImageRec) (lines : List LineRec) :
    extract_figure_labels image lines =
      extract_figure_labels image (lines.filter (fun l =>
        l.page_number == image.page_number ||
          l.page_number == image.page_number + 1)) ∧
    ((∃ l ∈ lines, l.page_number = image.page_number) →
      ∀ cand ∈ extract_figure_labels image lines, 0 ≤ cand.distance) ∧
    (∀ cand ∈ extract_figure_labels image lines,
      cand.page_number = image.page_number ∨
        cand.page_number = image.page_number + 1) ∧
    (∀ line : LineRec, ∀ im : ImageRec,
      ((im.top ≤ (line.top + line.bottom) / 2 ∧
          (line.top + line.bottom) / 2 ≤ im.bottom) →
        get_distance_from_line_to_image line im = 0) ∧
      (¬(im.top ≤ (line.top + line.bottom) / 2 ∧
          (line.top + line.bottom) / 2 ≤ im.bottom) →
        get_distance_from_line_to_image line im =
          min |(line.top + line.bottom) / 2 - im.top|
            |(line.top + line.bottom) / 2 - im.bottom|)) ∧
    (∀ l ∈ lines, l.page_number = image.page_number + 1 →
      (shiftLineBy l (pageMaxBottom image lines),
        get_distance_from_line_to_image
          (shiftLineBy l (pageMaxBottom image lines)) image) ∈
        linesWithDistance image lines) ∧
    extract_figure_labels labelImage crossLines = crossExpected := by
  have hmem : ∀ cand ∈ extract_figure_labels image lines,
      ∃ p ∈ linesWithDistance image lines,
        cand.page_number = p.1.page_number ∧ cand.distance = p.2 := by
    intro cand hc
    rw [extract_figure_labels_eq] at hc
    rcases List.mem_bind.1 hc with ⟨p, hp, hcp⟩
    have hp' := (List.mem_filter.1 hp).1
    have hproj := mem_labelsFromRow hcp
    exact ⟨p, hp', hproj.1, hproj.2⟩
  refine ⟨?_, ?_, ?_, ?_, ?_, of_decide_eq_true (by with_unfolding_all rfl)⟩
  · rw [extract_figure_labels_eq, extract_figure_labels_eq,
      linesWithDistance_filter_pages]
  · intro _ cand hc
    rcases hmem cand hc with ⟨p, hp, _, hdist⟩
    rw [hdist, (mem_linesWithDistance hp).2]
    exact get_distance_nonneg _ _
  · intro cand hc
    rcases hmem cand hc with ⟨p, hp, hpage, _⟩
    rw [hpage]
    exact (mem_linesWithDistance hp).1
  · intro line im
    constructor
    · rintro ⟨h1, h2⟩
      simp only [get_distance_from_line_to_image]
      split
      · rfl
      · rename_i hn
        rcases not_and_or.1 hn with hn | hn
        · have he : (line.top + line.bottom) / 2 = im.top :=
            le_antisymm (not_lt.1 hn) h1
          rw [he, sub_self, abs_zero]
          exact min_eq_left (abs_nonneg _)
        · have he : (line.top + line.bottom) / 2 = im.bottom :=
            le_antisymm h2 (not_lt.1 hn)
          rw [he, sub_self, abs_zero]
          exact min_eq_right (abs_nonneg _)
    · intro hn
      simp only [get_distance_from_line_to_image]
      split
      · rename_i hp
        exact absurd ⟨le_of_lt hp.1, le_of_lt hp.2⟩ hn
      · rfl
  · intro l hl hpage
    simp only [linesWithDistance]
    refine List.mem_append.2 (Or.inr ?_)
    refine List.mem_map_of_mem _ ?_
    refine List.mem_map_of_mem _ ?_
    exact List.mem_filter.2 ⟨hl, by simp [hpage]⟩

/-- Witness for C5 at the literal cross-page input. -/
theorem C5_witness :
    (∃ l ∈ crossLines, l.page_number = labelImage.page_number) ∧
    (∀ cand ∈ extract_figure_labels labelImage crossLines, 0 ≤ cand.distance) :=
  ⟨by decide, (C5_claim labelImage crossLines).2.1 (by decide)⟩

/-- A line whose word after the indicator is a lone dash. -/
def dashLine : LineRec :=
  { line_number := 1, page_number := 1, top := 20, bottom := 30,
    text := "fig - caption" }

/-- Claim C10.  When the word following an indicator occurrence has no
alphanumeric characters at all, the occurrence is not skipped: a candidate
with the empty-string label is emitted. -/
theorem C10_claim (image : ImageRec) (lines : List LineRec) (l : LineRec)
    (hl : l ∈ lines) (hp : l.page_number = image.page_number)
    (hpre : matchesFigureRegex (pyLower l.text) = true) (i : Nat)
    (hw : stripNonAlnum ((pySplit (pyLower l.text)).getD i "") ∈ FIGURE_INDICATORS)
    (hi : i < (pySplit (pyLower l.text)).length - 1)
    (hno : stripNonAlnum ((pySplit (pyLower l.text)).getD (i + 1) "") = "") :
    ∃ d, { page_number := l.page_number, line_number := l.line_number,
           word_number := i, distance := d, label := "" } ∈
      extract_figure_labels image lines := by
  refine ⟨get_distance_from_line_to_image l image, ?_⟩
  rw [extract_figure_labels_eq]
  refine List.mem_bind.2 ⟨(l, get_distance_from_line_to_image l image), ?_, ?_⟩
  · refine List.mem_filter.2 ⟨?_, hpre⟩
    simp only [linesWithDistance]
    refine List.mem_append.2 (Or.inl ?_)
    refine List.mem_map_of_mem _ ?_
    exact List.mem_filter.2 ⟨hl, by simp [hp]⟩
  · rw [labelsFromRow_eq]
    have hlen : i < (pySplit (pyLower l.text)).length := by omega
    refine List.mem_filterMap.2
      ⟨(i, (pySplit (pyLower l.text)).getD i ""), ?_, ?_⟩
    · rw [List.mem_enum_iff_getElem?]
      rw [List.getD_eq_getElem?_getD, List.getElem?_eq_getElem hlen]
      rfl
    · rw [if_pos ⟨hw, hi⟩]
      have hno' : stripNonAlnum ((pySplit (pyLower l.text))[i + 1]?.getD "") = "" := by
        rw [← List.getD_eq_getElem?_getD]
        exact hno
      simp [mkCand, truncatedLabel, hno']

/-- Witness for C10 at the line `"fig - caption"`: the dash strips to the
empty string and a candidate with label `""` is still emitted. -/
theorem C10_witness :
    ∃ d, { page_number := 1, line_number := 1, word_number := 0,
           distance := d, label := "" } ∈
      extract_figure_labels labelImage [dashLine] :=
  C10_claim labelImage [dashLine] dashLine (List.mem_singleton.2 rfl) rfl
    (by decide) 0 (by decide) (by decide) (by decide)

/-- Word `"world"` of the line-assembly sample. -/
def wordWorld : WordRec :=
  { page_number := 1, top := 10, bottom := 20, x0 := 5, text := "world" }

/-- Word `"hello"` of the line-assembly sample, left of `"world"`. -/
def wordHello : WordRec :=
  { page_number := 1, top := 10, bottom := 20, x0 := 1, text := "hello" }

/-- A word on a different vertical span. -/
def wordNext : WordRec :=
  { page_number := 1, top := 30, bottom := 40, x0 := 2, text := "next" }

/-- The word table of the line-assembly sample. -/
def wordsSample : List WordRec := [wordWorld, wordHello, wordNext]

/-- The first assembled line of the sample. -/
def lineHello : LineRec :=
  { line_number := 0, page_number := 1, top := 10, bottom := 20, text := "hello world" }

/-- Claim C6.  `word_df_to_line_df` numbers its rows consecutively from 0,
produces the group keys in strictly ascending `(page_number, top, bottom)`
order, builds each line's text by joining — with single spaces — the texts
of exactly the words whose `(page_number, top, bottom)` equals the line's
key (so words differing at all in `top` or `bottom` never share a line),
sorted by `x0` ascending, and produces a line for every word's key. -/
theorem C6_claim (word_df : List WordRec) :
    ((word_df_to_line_df word_df).map (fun r => r.line_number) =
      List.range (word_df_to_line_df word_df).length) ∧
    (word_df_to_line_df word_df).Pairwise
      (fun a b => sortKeyLt (lineSortKey a) (lineSortKey b) = true) ∧
    (∀ r ∈ word_df_to_line_df word_df,
      r.text = String.intercalate " "
        ((sortStable ratLt (fun w => w.x0)
          (word_df.filter (fun w => wordSortKey w == lineSortKey r))).map
            (fun w => w.text))) ∧
    (∀ r ∈ word_df_to_line_df word_df,
      (sortStable ratLt (fun w => w.x0)
        (word_df.filter (fun w => wordSortKey w == lineSortKey r))).Pairwise
          (fun u v => u.x0 ≤ v.x0)) ∧
    (∀ w ∈ word_df, ∃ r ∈ word_df_to_line_df word_df,
      lineSortKey r = wordSortKey w) := by
  have hxsorted : ∀ (ws : List WordRec),
      (sortStable ratLt (fun w => w.x0) ws).Pairwise (fun u v => u.x0 ≤ v.x0) := by
    intro ws
    refine (sortStable_pairwise ratLt (fun w => w.x0)
      ratLt_asymm ratLt_neg_trans ws).imp ?_
    intro a b hab
    exact not_lt.1 (by simpa [ratLt] using hab)
  have hperm := sortStable_perm sortKeyLt (id : SortKey → SortKey)
    ((word_df.map wordSortKey).dedup)
  have hnd : (sortStable sortKeyLt (id : SortKey → SortKey)
      ((word_df.map wordSortKey).dedup)).Nodup :=
    hperm.nodup_iff.2 (List.nodup_dedup _)
  have hstrict : (sortStable sortKeyLt (id : SortKey → SortKey)
      ((word_df.map wordSortKey).dedup)).Pairwise
        (fun a b => sortKeyLt a b = true) := by
    have hpw := sortStable_pairwise sortKeyLt (id : SortKey → SortKey)
      sortKeyLt_asymm sortKeyLt_neg_trans ((word_df.map wordSortKey).dedup)
    refine (hpw.and hnd).imp ?_
    intro a b hab
    rcases hab with ⟨hle, hne⟩
    by_cases h : sortKeyLt a b = true
    · exact h
    · exact absurd (sortKeyLt_total a b (Bool.eq_false_iff.2 h) hle) hne
  refine ⟨?_, ?_, ?_, ?_, ?_⟩
  · rw [word_df_to_line_df, List.map_map]
    rw [show ((fun r : LineRec => r.line_number) ∘ mkLineRec word_df) =
      Prod.fst from rfl]
    rw [List.enum_map_fst, List.length_map, List.enum_length]
  · have henum : (sortStable sortKeyLt (id : SortKey → SortKey)
        ((word_df.map wordSortKey).dedup)).enum.Pairwise
          (fun p q => sortKeyLt p.2 q.2 = true) := by
      have h2 : ((sortStable sortKeyLt (id : SortKey → SortKey)
          ((word_df.map wordSortKey).dedup)).enum.map Prod.snd).Pairwise
            (fun a b => sortKeyLt a b = true) := by
        rw [List.enum_map_snd]
        exact hstrict
      exact (List.pairwise_map).1 h2
    rw [word_df_to_line_df]
    refine (List.pairwise_map).2 ?_
    exact henum
  · intro r hr
    rw [word_df_to_line_df] at hr
    rcases List.mem_map.1 hr with ⟨p, _, he⟩
    rw [← he]
    rfl
  · intro r _
    exact hxsorted _
  · intro w hw
    have hkey : wordSortKey w ∈ (word_df.map wordSortKey).dedup :=
      List.mem_dedup.2 (List.mem_map_of_mem _ hw)
    have hkeys : wordSortKey w ∈ sortStable sortKeyLt (id : SortKey → SortKey)
        ((word_df.map wordSortKey).dedup) := hperm.mem_iff.2 hkey
    rcases List.getElem_of_mem hkeys with ⟨i, hi, he⟩
    have henum : (i, wordSortKey w) ∈ (sortStable sortKeyLt
        (id : SortKey → SortKey) ((word_df.map wordSortKey).dedup)).enum := by
      rw [List.mem_enum_iff_getElem?]
      rw [List.getElem?_eq_getElem hi, he]
    exact ⟨mkLineRec word_df (i, wordSortKey w),
      by rw [word_df_to_line_df]; exact List.mem_map_of_mem _ henum, rfl⟩

/-- Witness for C6 at a three-word sample: the words sharing the span
`(1, 10, 20)` are joined left to right into `"hello world"`. -/
theorem C6_witness :
    lineHello ∈ word_df_to_line_df wordsSample ∧
    lineHello.text = String.intercalate " "
      ((sortStable ratLt (fun w => w.x0)
        (wordsSample.filter (fun w => wordSortKey w == lineSortKey lineHello))).map
          (fun w => w.text)) :=
  ⟨by decide, (C6_claim wordsSample).2.2.1 lineHello (by decide)⟩
